import Mathlib

/-!
Shallow embedding of the Thriftbooks scraper (`src/main.py`) and proofs of its
specification claims.

The browser is external: we model the DOM state it presents as explicit data.
A listing page is the set of item elements (each with an optional `href`
attribute) plus the outcomes of the waits the code performs on it; a detail
page is the title element, the rating meta attribute and the price buttons,
plus the outcomes of the waits and lookups.  Python exceptions are modelled by
`Bool` success flags (a `try`/`except` block becomes a test on the flag), and
Python `None` by `Option`.  Python dicts (insertion-ordered) are association
lists `List (String × _)` updated in place by `setKey`.
-/

/-- Python `s.strip()` on the character list: drop whitespace at both ends. -/
def stripChars (s : List Char) : List Char :=
  ((s.dropWhile Char.isWhitespace).reverse.dropWhile Char.isWhitespace).reverse

/-- Python `s.strip()`. -/
def pyStrip (s : String) : String :=
  String.mk (stripChars s.toList)

/-- Python `s.replace(pat, "")`: remove every occurrence of `pat`, scanning
left to right, non-overlapping.  `fuel` bounds the recursion (one unit per
consumed character, so `s.length` suffices). -/
def removeAllFuel (pat : List Char) : Nat → List Char → List Char
  | _, [] => []
  | 0, s => s
  | fuel + 1, c :: rest =>
    if !pat.isEmpty && pat.isPrefixOf (c :: rest) then
      removeAllFuel pat fuel (List.drop (pat.length - 1) rest)
    else
      c :: removeAllFuel pat fuel rest

/-- Python `text.replace(fmt, "")`. -/
def pyRemoveAll (text pat : String) : String :=
  String.mk (removeAllFuel pat.toList text.toList.length text.toList)

/-- Python substring containment `pat in s`. -/
def containsSub (pat : List Char) : List Char → Bool
  | [] => pat.isEmpty
  | c :: rest => pat.isPrefixOf (c :: rest) || containsSub pat rest

/-- Python `text.startswith(fmt) or fmt in text` from line 136 of `main.py`. -/
def matchesFmt (text fmt : String) : Bool :=
  fmt.toList.isPrefixOf text.toList || containsSub fmt.toList text.toList

/-!
## Listing collector (`get_book_links`)

A `ListingPage` is the state of one listing page as the browser shows it:
the `href` attribute of each `SearchResultGridItem` element (in DOM order,
`none` when the attribute is absent), whether the initial presence wait
succeeds (`waitOk = false` models the 20s `WebDriverWait` timing out, which
raises into the outer `try`), whether the next-button wait succeeds
(`nextFound = false` models the inner `try`'s `except` branch), and whether
the next button carries `disabled`/`aria-disabled="true"`.  Clicking an
enabled next button advances to the next page of the trace; an exhausted
trace simply ends the run with what was accumulated.
-/
structure ListingPage where
  items : List (Option String)
  waitOk : Bool
  nextFound : Bool
  nextDisabled : Bool
deriving DecidableEq, Repr

/-- The inner `for el in link_elements` loop of `get_book_links`
(lines 47–55): append each truthy, unseen `href`; after each append, if
`max_links` is set and the count reached it, return immediately (the `Bool`
result signals that early `return`). -/
def addLinks (max_links : Option Nat) : List String → List (Option String) → List String × Bool
  | acc, [] => (acc, false)
  | acc, none :: rest => addLinks max_links acc rest
  | acc, some href :: rest =>
    if href ≠ "" ∧ href ∉ acc then
      let acc' := acc ++ [href]
      match max_links with
      | some m => if m ≤ acc'.length then (acc', true) else addLinks max_links acc' rest
      | none => addLinks max_links acc' rest
    else
      addLinks max_links acc rest

/-- The `while True` loop of `get_book_links` (lines 36–77), one iteration per
page of the trace.  `waitOk = false` raises out of the loop into the outer
`except`, which returns the accumulated list; a reached `max_links` returns
mid-page; a missing or disabled next button breaks the loop. -/
def collectGo (max_links : Option Nat) : List ListingPage → List String → List String
  | [], acc => acc
  | p :: rest, acc =>
    if p.waitOk = false then acc
    else
      let res := addLinks max_links acc p.items
      if res.2 then res.1
      else if p.nextFound = false then res.1
      else if p.nextDisabled then res.1
      else collectGo max_links rest res.1

/-- Function `get_book_links(driver, max_links)` over a trace of listing pages. -/
def get_book_links (pages : List ListingPage) (max_links : Option Nat) : List String :=
  collectGo max_links pages []

/-- One step of first-occurrence deduplication: append `s` unless it is
absent, empty, or already collected. -/
def dedupInsert (acc : List String) (h : Option String) : List String :=
  match h with
  | some s => if s ≠ "" ∧ s ∉ acc then acc ++ [s] else acc
  | none => acc

/-- First-occurrence deduplication of an `href` stream, skipping absent and
empty attributes: the order-theoretic specification `get_book_links` is
compared against. -/
def firstDedup (hrefs : List (Option String)) : List String :=
  hrefs.foldl dedupInsert []

/-- A trace in which every page's waits succeed and every next button is
enabled, so the collector walks the whole trace. -/
def fullTraversal (pages : List ListingPage) : Bool :=
  pages.all fun p => p.waitOk && p.nextFound && !p.nextDisabled

example : get_book_links
    [⟨[some "A", some "B", some "C"], true, true, false⟩,
     ⟨[some "C", some "D"], true, true, true⟩] none = ["A", "B", "C", "D"] := by decide

example : get_book_links
    [⟨[some "A", some "B", some "C"], true, true, false⟩,
     ⟨[some "C", some "D"], true, true, true⟩] (some 2) = ["A", "B"] := by decide

example : get_book_links [⟨[some "A"], true, true, true⟩] (some 0) = ["A"] := by decide

/-!
## Detail extractor (`scrape_book_details`)

A `DetailPage` is the state of one book detail page: whether `driver.get`
succeeds (`navOk`), whether the 15s title wait, the title `find_element` and
the text read succeed (`titleWaitOk`), the raw title text, the rating meta
element (`none` models `find_element` raising into the inner rating `try`;
`some a` is the `content` attribute, itself `none` when absent — Python
`get_attribute` then yields `None`, not an exception), whether the price
button enumeration succeeds (`buttonsOk = false` models the `except: pass`),
and the raw button texts.  A record is the insertion-ordered Python dict:
an association list whose values are `Option String` (`none` is Python
`None`).
-/
structure DetailPage where
  navOk : Bool
  titleWaitOk : Bool
  title : String
  ratingAttr : Option (Option String)
  buttonsOk : Bool
  buttons : List String
deriving DecidableEq, Repr

/-- A scraped row: Python dict in insertion order, values possibly `None`. -/
abbrev Record := List (String × Option String)

/-- The hardcoded format catalog (lines 125–128 of `main.py`). -/
def formats : List String :=
  ["Hardcover", "Paperback", "Library Binding",
   "Like New", "Very Good", "Good", "Acceptable", "New"]

/-- Initialization of `prices_dict` mapping every format to "N/A" (line 129). -/
def initPrices : List (String × String) :=
  formats.map fun fmt => (fmt, "N/A")

/-- Cleaning `text.replace(fmt, "").strip()` with the empty remainder replaced by
"N/A" (lines 138–139). -/
def derivePrice (text fmt : String) : String :=
  let clean := pyStrip (pyRemoveAll text fmt)
  if clean = "" then "N/A" else clean

/-- Python dict assignment `d[k] = v` on an insertion-ordered dict: replace
in place when the key is present, append otherwise. -/
def setKey (k : String) (v : String) : List (String × String) → List (String × String)
  | [] => [(k, v)]
  | kv :: rest => if kv.1 = k then (k, v) :: rest else kv :: setKey k v rest

/-- One iteration of `for btn in price_buttons` (lines 133–139):
`text = btn.text.strip()`, then every matching format gets the derived
price. -/
def applyButton (prices : List (String × String)) (raw : String) : List (String × String) :=
  let text := pyStrip raw
  formats.foldl
    (fun pr fmt => if matchesFmt text fmt then setKey fmt (derivePrice text fmt) pr else pr)
    prices

/-- The per-link `try` body of `scrape_book_details` (lines 105–152): `none`
when navigation or the title wait raises (the per-link `except` then skips the
link).  The rating `try` swallows only a raising `find_element`; the button
`try` swallows an enumeration failure, leaving `initPrices`. -/
def processLink (page : DetailPage) (link : String) : Option Record :=
  if page.navOk = false then none
  else if page.titleWaitOk = false then none
  else
    let title := pyStrip page.title
    let rating : Option String :=
      match page.ratingAttr with
      | none => some "N/A"
      | some a => a
    let prices :=
      if page.buttonsOk then page.buttons.foldl applyButton initPrices else initPrices
    some (("Title", some title) :: ("Rating", rating) :: ("URL", some link) ::
      prices.map fun kv => (kv.1, some kv.2))

/-- Loop of `scrape_book_details(driver, links, max_links)`.  The browser's response
to `driver.get(link)` is the environment `env link`.  The input is truncated
to `max_links` first (line 102); each successfully processed link appends one
row, a failed link appends nothing. -/
def scrape_book_details (env : String → DetailPage) (links : List String)
    (max_links : Option Nat) : List Record :=
  let links' := match max_links with | some m => links.take m | none => links
  links'.foldl
    (fun results link =>
      match processLink (env link) link with
      | some row => results ++ [row]
      | none => results) []

/-!
## Tabular writer (`save_to_csv`)

`save_to_csv` with empty data prints and returns without touching the file:
modelled as `none`.  Otherwise the header is the first record's key list and
each row lists the record's values in header order (`csv.DictWriter`); a
missing key surfaces as an inner `none` cell (`DictWriter` would raise — the
spec leaves this undefined).
-/
def save_to_csv (data : List Record) :
    Option (List String × List (List (Option (Option String)))) :=
  match data with
  | [] => none
  | first :: _ =>
    let fieldnames := first.map Prod.fst
    some (fieldnames, data.map fun row => fieldnames.map fun k => List.lookup k row)

/-- Function `make_driver(headless)`: the Chrome options argument list it builds.  The
`--headless` line is commented out in the source, so the argument is unused. -/
def make_driver (headless : Bool) : List String :=
  ["--remote-debugging-port=9222"]

example :
    (processLink ⟨true, true, " T ", some (some "4.1"), true, ["Very Good $5", "Good $3"]⟩
        "u").bind (List.lookup "Good") = some (some "$3") := by decide

example :
    (processLink ⟨true, true, " T ", some (some "4.1"), true, ["Very Good $5", "Good $3"]⟩
        "u").bind (List.lookup "Very Good") = some (some "$5") := by decide

example :
    (processLink ⟨true, true, "T", some (some "4.1"), true, ["Very Good $5"]⟩
        "u").bind (List.lookup "Good") = some (some "Very  $5") := by decide

/-!
## Association-list lemmas
-/

theorem lookup_setKey (k k' : String) (v : String) (l : List (String × String)) :
    List.lookup k (setKey k' v l) = if k = k' then some v else List.lookup k l := by
  induction l with
  | nil =>
    by_cases h : k = k'
    · simp [setKey, List.lookup, h]
    · have hb : (k == k') = false := by simp [h]
      simp [setKey, List.lookup, hb, h]
  | cons kv rest ih =>
    by_cases h : kv.1 = k'
    · by_cases hk : k = k'
      · have hb : (k == k') = true := by simp [hk]
        simp [setKey, h, List.lookup, hb, hk]
      · have hne : k ≠ kv.1 := by rw [h]; exact hk
        have hb : (k == k') = false := by simp [hk]
        have hb2 : (k == kv.1) = false := by simp [hne]
        simp [setKey, h, List.lookup, hb, hb2, hk]
    · by_cases hk : k = kv.1
      · have hkk' : k ≠ k' := by rw [hk]; exact h
        have hb : (k == kv.1) = true := by simp [hk]
        simp [setKey, h, List.lookup, hb, hkk']
      · have hb : (k == kv.1) = false := by simp [hk]
        simp [setKey, h, List.lookup, hb, ih]

theorem keys_setKey (k : String) (v : String) (l : List (String × String))
    (h : k ∈ l.map Prod.fst) : (setKey k v l).map Prod.fst = l.map Prod.fst := by
  induction l with
  | nil => simp at h
  | cons kv rest ih =>
    by_cases hk : kv.1 = k
    · simp [setKey, hk]
    · have h' : k ∈ List.map Prod.fst rest := by
        simp only [List.map_cons, List.mem_cons] at h
        exact h.resolve_left fun hc => hk hc.symm
      simp [setKey, hk, ih h']

theorem lookup_map_some (k : String) (l : List (String × String)) :
    List.lookup k (l.map fun kv => (kv.1, some kv.2)) = (List.lookup k l).map Option.some := by
  induction l with
  | nil => simp [List.lookup]
  | cons kv rest ih =>
    by_cases hk : k = kv.1
    · have hb : (k == kv.1) = true := by simp [hk]
      simp [List.lookup, hb]
    · have hb : (k == kv.1) = false := by simp [hk]
      simp [List.lookup, hb, ih]

theorem lookup_foldSet_notMem (q : String → Bool) (vf : String → String) (fmt : String) :
    ∀ (fmts : List String) (pr : List (String × String)), fmt ∉ fmts →
      List.lookup fmt
          (fmts.foldl (fun pr f => if q f then setKey f (vf f) pr else pr) pr) =
        List.lookup fmt pr := by
  intro fmts
  induction fmts with
  | nil => intro pr _; rfl
  | cons f rest ih =>
    intro pr h
    have hf : fmt ≠ f := fun hc => h (hc ▸ List.mem_cons_self f rest)
    have h2 : fmt ∉ rest := fun hc => h (List.mem_cons_of_mem f hc)
    simp only [List.foldl_cons]
    rw [ih _ h2]
    by_cases hq : q f
    · simp [hq, lookup_setKey, hf]
    · simp [hq]

theorem lookup_foldSet_mem (q : String → Bool) (vf : String → String) (fmt : String) :
    ∀ (fmts : List String) (pr : List (String × String)), fmt ∈ fmts →
      List.lookup fmt
          (fmts.foldl (fun pr f => if q f then setKey f (vf f) pr else pr) pr) =
        if q fmt then some (vf fmt) else List.lookup fmt pr := by
  intro fmts
  induction fmts with
  | nil => intro pr h; simp at h
  | cons f rest ih =>
    intro pr h
    simp only [List.foldl_cons]
    by_cases hr : fmt ∈ rest
    · rw [ih _ hr]
      by_cases hq : q fmt
      · simp [hq]
      · rw [if_neg hq, if_neg hq]
        by_cases hf : f = fmt
        · subst hf
          rw [if_neg hq]
        · by_cases hqf : q f
          · rw [if_pos hqf, lookup_setKey, if_neg fun hc => hf hc.symm]
          · rw [if_neg hqf]
    · have hf : f = fmt := by
        rcases List.mem_cons.mp h with h1 | h1
        · exact h1.symm
        · exact absurd h1 hr
      subst hf
      rw [lookup_foldSet_notMem q vf f rest _ hr]
      by_cases hq : q f
      · simp [hq, lookup_setKey]
      · simp [hq]

theorem keys_foldSet (q : String → Bool) (vf : String → String) :
    ∀ (fmts : List String) (pr : List (String × String)),
      (∀ f ∈ fmts, f ∈ pr.map Prod.fst) →
      (fmts.foldl (fun pr f => if q f then setKey f (vf f) pr else pr) pr).map Prod.fst =
        pr.map Prod.fst := by
  intro fmts
  induction fmts with
  | nil => intro pr _; rfl
  | cons f rest ih =>
    intro pr h
    simp only [List.foldl_cons]
    have hk : ((if q f then setKey f (vf f) pr else pr).map Prod.fst) = pr.map Prod.fst := by
      by_cases hq : q f
      · simp [hq, keys_setKey f (vf f) pr (h f (List.mem_cons_self f rest))]
      · simp [hq]
    have h' : ∀ g ∈ rest, g ∈ ((if q f then setKey f (vf f) pr else pr).map Prod.fst) := by
      intro g hg; rw [hk]; exact h g (List.mem_cons_of_mem f hg)
    rw [ih _ h', hk]

theorem keys_applyButton (pr : List (String × String)) (raw : String)
    (h : ∀ f ∈ formats, f ∈ pr.map Prod.fst) :
    (applyButton pr raw).map Prod.fst = pr.map Prod.fst :=
  keys_foldSet (fun f => matchesFmt (pyStrip raw) f)
    (fun f => derivePrice (pyStrip raw) f) formats pr h

theorem lookup_applyButton (pr : List (String × String)) (raw fmt : String)
    (hf : fmt ∈ formats) :
    List.lookup fmt (applyButton pr raw) =
      if matchesFmt (pyStrip raw) fmt then some (derivePrice (pyStrip raw) fmt)
      else List.lookup fmt pr :=
  lookup_foldSet_mem (fun f => matchesFmt (pyStrip raw) f)
    (fun f => derivePrice (pyStrip raw) f) fmt formats pr hf

theorem initPrices_keys : initPrices.map Prod.fst = formats := by
  decide

theorem keys_foldButtons (buttons : List String) :
    ∀ pr : List (String × String), pr.map Prod.fst = formats →
      (buttons.foldl applyButton pr).map Prod.fst = formats := by
  induction buttons with
  | nil => intro pr h; exact h
  | cons b rest ih =>
    intro pr h
    simp only [List.foldl_cons]
    have h' : ∀ f ∈ formats, f ∈ pr.map Prod.fst := by
      rw [h]; exact fun f hf => hf
    exact ih _ (by rw [keys_applyButton pr b h', h])

theorem lookup_initPrices (fmt : String) (hf : fmt ∈ formats) :
    List.lookup fmt initPrices = some "N/A" := by
  fin_cases hf <;> decide

theorem getLast?_mem_of_eq {α : Type _} {l : List α} {t : α} (h : l.getLast? = some t) :
    t ∈ l := by
  have ht : t ∈ l.getLast? := by rw [Option.mem_def]; exact h
  rcases List.mem_getLast?_eq_getLast ht with ⟨hne, rfl⟩
  exact List.getLast_mem hne

theorem getLast?_cons_of_ne_nil {α : Type _} (a : α) {l : List α} (h : l ≠ []) :
    (a :: l).getLast? = l.getLast? := by
  cases l with
  | nil => exact absurd rfl h
  | cons b m => exact List.getLast?_cons_cons

/-- The value `prices_dict[fmt]` holds after the whole button loop: the price
derived from the last button whose stripped text matches `fmt`, or the value
it held before the loop when no button matches. -/
theorem lookup_foldButtons (fmt : String) (hf : fmt ∈ formats) :
    ∀ (buttons : List String) (pr : List (String × String)),
      List.lookup fmt (buttons.foldl applyButton pr) =
        match (buttons.filter fun b => matchesFmt (pyStrip b) fmt).getLast? with
        | some t => some (derivePrice (pyStrip t) fmt)
        | none => List.lookup fmt pr := by
  intro buttons
  induction buttons with
  | nil => intro pr; rfl
  | cons b rest ih =>
    intro pr
    rw [List.foldl_cons, ih (applyButton pr b)]
    by_cases hm : matchesFmt (pyStrip b) fmt
    · have hfc : List.filter (fun x => matchesFmt (pyStrip x) fmt) (b :: rest) =
          b :: List.filter (fun x => matchesFmt (pyStrip x) fmt) rest := by
        simp [List.filter_cons, hm]
      rw [hfc]
      cases hl : (List.filter (fun x => matchesFmt (pyStrip x) fmt) rest).getLast? with
      | none =>
        have he : List.filter (fun x => matchesFmt (pyStrip x) fmt) rest = [] :=
          List.getLast?_eq_none_iff.mp hl
        rw [he]
        show List.lookup fmt (applyButton pr b) = _
        rw [lookup_applyButton pr b fmt hf, if_pos hm]
        rfl
      | some t =>
        have hne : List.filter (fun x => matchesFmt (pyStrip x) fmt) rest ≠ [] := by
          intro hc; rw [hc] at hl; simp at hl
        rw [getLast?_cons_of_ne_nil b hne, hl]
    · have hfc : List.filter (fun x => matchesFmt (pyStrip x) fmt) (b :: rest) =
          List.filter (fun x => matchesFmt (pyStrip x) fmt) rest := by
        simp [List.filter_cons, hm]
      rw [hfc]
      cases hl : (List.filter (fun x => matchesFmt (pyStrip x) fmt) rest).getLast? with
      | none =>
        show List.lookup fmt (applyButton pr b) = _
        rw [lookup_applyButton pr b fmt hf, if_neg hm]
      | some t => rfl

/-!
## Record-level lemmas
-/

/-- The final state of `prices_dict` for a detail page (the button `try`
either runs the whole loop or leaves the initial dict untouched). -/
def pricesOf (page : DetailPage) : List (String × String) :=
  if page.buttonsOk = true then page.buttons.foldl applyButton initPrices else initPrices

theorem processLink_eq {page : DetailPage} {link : String} {r : Record}
    (h : processLink page link = some r) :
    r = ("Title", some (pyStrip page.title)) ::
        ("Rating", match page.ratingAttr with | none => some "N/A" | some a => a) ::
        ("URL", some link) ::
        (pricesOf page).map (fun kv => (kv.1, some kv.2)) := by
  cases hn : page.navOk with
  | false => rw [processLink, if_pos hn] at h; exact absurd h (by simp)
  | true =>
    cases ht : page.titleWaitOk with
    | false =>
      rw [processLink, if_neg (by simp [hn]), if_pos ht] at h
      exact absurd h (by simp)
    | true =>
      rw [processLink, if_neg (by simp [hn]), if_neg (by simp [ht])] at h
      rw [pricesOf]
      exact (Option.some_inj.mp h).symm

theorem pricesOf_keys (page : DetailPage) : (pricesOf page).map Prod.fst = formats := by
  rw [pricesOf]
  by_cases hb : page.buttonsOk = true
  · rw [if_pos hb]
    exact keys_foldButtons page.buttons initPrices initPrices_keys
  · rw [if_neg hb]
    exact initPrices_keys

theorem record_keys {page : DetailPage} {link : String} {r : Record}
    (h : processLink page link = some r) :
    r.map Prod.fst = "Title" :: "Rating" :: "URL" :: formats := by
  rw [processLink_eq h]
  simp only [List.map_cons, List.map_map]
  rw [show ((Prod.fst ∘ fun kv : String × String => (kv.1, some kv.2)) = Prod.fst) from rfl]
  rw [pricesOf_keys]

theorem formats_not_fixed_key : ∀ f ∈ formats, f ≠ "Title" ∧ f ≠ "Rating" ∧ f ≠ "URL" := by
  decide

theorem lookup_record_fmt {page : DetailPage} {link : String} {r : Record} {fmt : String}
    (h : processLink page link = some r) (hf : fmt ∈ formats) :
    List.lookup fmt r = (List.lookup fmt (pricesOf page)).map Option.some := by
  obtain ⟨hT, hR, hU⟩ := formats_not_fixed_key fmt hf
  rw [processLink_eq h]
  have bT : (fmt == "Title") = false := by simp [hT]
  have bR : (fmt == "Rating") = false := by simp [hR]
  have bU : (fmt == "URL") = false := by simp [hU]
  simp only [List.lookup, bT, bR, bU]
  exact lookup_map_some fmt (pricesOf page)

theorem lookup_record_rating {page : DetailPage} {link : String} {r : Record}
    (h : processLink page link = some r) :
    List.lookup "Rating" r =
      some (match page.ratingAttr with | none => some "N/A" | some a => a) := by
  rw [processLink_eq h]
  simp [List.lookup]

/-!
## Scrape-loop lemmas
-/

theorem foldl_append_filterMap (env : String → DetailPage) (links : List String) :
    ∀ acc : List Record,
      links.foldl
          (fun results link =>
            match processLink (env link) link with
            | some row => results ++ [row]
            | none => results) acc =
        acc ++ links.filterMap (fun l => processLink (env l) l) := by
  induction links with
  | nil => intro acc; simp
  | cons l rest ih =>
    intro acc
    rw [List.foldl_cons, List.filterMap_cons]
    cases hp : processLink (env l) l with
    | none => simpa using ih acc
    | some row => simpa using ih (acc ++ [row])

theorem scrape_eq_filterMap (env : String → DetailPage) (links : List String) :
    scrape_book_details env links none =
      links.filterMap (fun l => processLink (env l) l) := by
  rw [scrape_book_details]
  simpa using foldl_append_filterMap env links []

theorem scrape_some_eq_take (env : String → DetailPage) (links : List String) (N : Nat) :
    scrape_book_details env links (some N) =
      (links.take N).filterMap (fun l => processLink (env l) l) := by
  rw [scrape_book_details]
  simpa using foldl_append_filterMap env (links.take N) []

theorem mem_scrape {env : String → DetailPage} {links : List String}
    {max_links : Option Nat} {r : Record}
    (h : r ∈ scrape_book_details env links max_links) :
    ∃ link, processLink (env link) link = some r := by
  cases max_links with
  | none =>
    rw [scrape_eq_filterMap] at h
    obtain ⟨l, _, hl⟩ := List.mem_filterMap.mp h
    exact ⟨l, hl⟩
  | some N =>
    rw [scrape_some_eq_take] at h
    obtain ⟨l, _, hl⟩ := List.mem_filterMap.mp h
    exact ⟨l, hl⟩

/-!
## Collector-loop lemmas
-/

theorem addLinks_length (N : Nat) (items : List (Option String)) :
    ∀ acc : List String, acc.length < N →
      ((addLinks (some N) acc items).2 = true → (addLinks (some N) acc items).1.length ≤ N) ∧
      ((addLinks (some N) acc items).2 = false → (addLinks (some N) acc items).1.length < N) := by
  induction items with
  | nil => intro acc h; simp [addLinks]; omega
  | cons hd rest ih =>
    intro acc h
    cases hd with
    | none => simpa [addLinks] using ih acc h
    | some href =>
      by_cases hc : href ≠ "" ∧ href ∉ acc
      · by_cases hm : N ≤ (acc ++ [href]).length
        · simp only [addLinks, if_pos hc, hm, if_true]
          constructor
          · intro _
            simp only [List.length_append, List.length_singleton]
            omega
          · intro hcontra
            simp at hcontra
        · have h' : (acc ++ [href]).length < N := by
            simp only [List.length_append, List.length_singleton] at hm ⊢
            omega
          simp only [addLinks, if_pos hc, hm, if_false]
          exact ih (acc ++ [href]) h'
      · simp only [addLinks, if_neg hc]
        exact ih acc h

theorem collectGo_length (N : Nat) (pages : List ListingPage) :
    ∀ acc : List String, acc.length < N →
      (collectGo (some N) pages acc).length ≤ N := by
  induction pages with
  | nil => intro acc h; simp only [collectGo]; omega
  | cons p rest ih =>
    intro acc h
    simp only [collectGo]
    by_cases hw : p.waitOk = false
    · rw [if_pos hw]; omega
    · rw [if_neg hw]
      have hl := addLinks_length N p.items acc h
      cases hA : addLinks (some N) acc p.items with
      | mk a b =>
        rw [hA] at hl
        dsimp only at hl ⊢
        cases b with
        | true => rw [if_pos rfl]; exact hl.1 rfl
        | false =>
          rw [if_neg Bool.false_ne_true]
          have ha : a.length < N := hl.2 rfl
          by_cases h1 : p.nextFound = false
          · rw [if_pos h1]; omega
          · rw [if_neg h1]
            by_cases h2 : p.nextDisabled
            · rw [if_pos h2]; omega
            · rw [if_neg h2]
              exact ih a ha

theorem addLinks_nodup (ml : Option Nat) (items : List (Option String)) :
    ∀ acc : List String, acc.Nodup → (addLinks ml acc items).1.Nodup := by
  induction items with
  | nil => intro acc h; simpa [addLinks] using h
  | cons hd rest ih =>
    intro acc h
    cases hd with
    | none => simpa [addLinks] using ih acc h
    | some href =>
      by_cases hc : href ≠ "" ∧ href ∉ acc
      · have hnd : (acc ++ [href]).Nodup := by
          rw [List.nodup_append]
          refine ⟨h, List.nodup_singleton href, ?_⟩
          intro x hx hsing
          rw [List.mem_singleton] at hsing
          subst hsing
          exact hc.2 hx
        rw [addLinks, if_pos hc]
        cases ml with
        | none => exact ih _ hnd
        | some m =>
          dsimp only
          by_cases hm : m ≤ (acc ++ [href]).length
          · rw [if_pos (by simpa using hm)]
            exact hnd
          · rw [if_neg (by simpa using hm)]
            exact ih _ hnd
      · rw [addLinks, if_neg hc]
        exact ih acc h

theorem collectGo_nodup (ml : Option Nat) (pages : List ListingPage) :
    ∀ acc : List String, acc.Nodup → (collectGo ml pages acc).Nodup := by
  induction pages with
  | nil => intro acc h; simpa [collectGo] using h
  | cons p rest ih =>
    intro acc h
    simp only [collectGo]
    by_cases hw : p.waitOk = false
    · rw [if_pos hw]; exact h
    · rw [if_neg hw]
      have hA := addLinks_nodup ml p.items acc h
      cases hE : addLinks ml acc p.items with
      | mk a b =>
        rw [hE] at hA
        dsimp only at hA ⊢
        cases b with
        | true => rw [if_pos rfl]; exact hA
        | false =>
          rw [if_neg Bool.false_ne_true]
          by_cases h1 : p.nextFound = false
          · rw [if_pos h1]; exact hA
          · rw [if_neg h1]
            by_cases h2 : p.nextDisabled
            · rw [if_pos h2]; exact hA
            · rw [if_neg h2]
              exact ih a hA

theorem addLinks_none (items : List (Option String)) :
    ∀ acc : List String, addLinks none acc items = (items.foldl dedupInsert acc, false) := by
  induction items with
  | nil => intro acc; rfl
  | cons hd rest ih =>
    intro acc
    cases hd with
    | none => simpa [addLinks, dedupInsert] using ih acc
    | some s =>
      by_cases hc : s ≠ "" ∧ s ∉ acc
      · simp only [addLinks, if_pos hc, List.foldl_cons, dedupInsert, ih]
      · simp only [addLinks, if_neg hc, List.foldl_cons, dedupInsert, ih, if_neg hc]

theorem fullTraversal_cons {p : ListingPage} {rest : List ListingPage}
    (hT : fullTraversal (p :: rest) = true) :
    p.waitOk = true ∧ p.nextFound = true ∧ p.nextDisabled = false ∧
      fullTraversal rest = true := by
  rw [fullTraversal, List.all_cons] at hT
  simp only [Bool.and_eq_true, Bool.not_eq_true'] at hT
  exact ⟨hT.1.1.1, hT.1.1.2, hT.1.2, hT.2⟩

theorem collectGo_full (pages : List ListingPage) :
    fullTraversal pages = true →
    ∀ acc : List String,
      collectGo none pages acc =
        ((pages.map ListingPage.items).flatten).foldl dedupInsert acc := by
  induction pages with
  | nil => intro _ acc; rfl
  | cons p rest ih =>
    intro hT acc
    obtain ⟨hw, hn, hd, hT'⟩ := fullTraversal_cons hT
    simp only [collectGo]
    rw [if_neg (by simp [hw]), addLinks_none p.items acc]
    dsimp only
    rw [if_neg Bool.false_ne_true, if_neg (by simp [hn]), if_neg (by simp [hd])]
    rw [ih hT' (p.items.foldl dedupInsert acc)]
    simp [List.foldl_append]

theorem collectGo_abort (max_links : Option Nat) (p : ListingPage) (post : List ListingPage)
    (hw : p.waitOk = false) :
    ∀ (pre : List ListingPage) (acc : List String),
      collectGo max_links (pre ++ p :: post) acc = collectGo max_links pre acc := by
  intro pre
  induction pre with
  | nil =>
    intro acc
    simp only [List.nil_append, collectGo, if_pos hw]
  | cons q rest ih =>
    intro acc
    simp only [List.cons_append, collectGo]
    by_cases h1 : q.waitOk = false
    · rw [if_pos h1, if_pos h1]
    · rw [if_neg h1, if_neg h1]
      cases hA : addLinks max_links acc q.items with
      | mk a b =>
        dsimp only
        cases b with
        | true => rw [if_pos rfl, if_pos rfl]
        | false =>
          rw [if_neg Bool.false_ne_true, if_neg Bool.false_ne_true]
          by_cases h2 : q.nextFound = false
          · rw [if_pos h2, if_pos h2]
          · rw [if_neg h2, if_neg h2]
            by_cases h3 : q.nextDisabled
            · rw [if_pos h3, if_pos h3]
            · rw [if_neg h3, if_neg h3]
              exact ih a

example :
    processLink ⟨true, true, "T", none, true, ["Good $3", "Good $4"]⟩ "u" =
      some [("Title", some "T"), ("Rating", some "N/A"), ("URL", some "u"),
        ("Hardcover", some "N/A"), ("Paperback", some "N/A"),
        ("Library Binding", some "N/A"), ("Like New", some "N/A"),
        ("Very Good", some "N/A"), ("Good", some "$4"),
        ("Acceptable", some "N/A"), ("New", some "N/A")] := by decide

example :
    processLink ⟨true, true, "T", none, false, []⟩ "u" =
      some (("Title", some "T") :: ("Rating", some "N/A") :: ("URL", some "u") ::
        initPrices.map fun kv => (kv.1, some kv.2)) := by decide

/-!
## Claims
-/

/-- C1, as stated, is false at `maxLinks = 0`: the count check (line 53 of
`main.py`) runs only after a link has been appended, so with `max_links = 0`
the first valid link is still appended and the returned list has length 1 > 0. -/
theorem c1_bound_counterexample :
    get_book_links [⟨[some "A"], true, true, true⟩] (some 0) = ["A"] ∧
    ¬ (get_book_links [⟨[some "A"], true, true, true⟩] (some 0)).length ≤ 0 := by
  decide

/-- C1 (amended): for every `maxLinks = N` with `N ≥ 1`, `get_book_links`
returns at most `N` links; and for every `N`, `scrape_book_details` with
`max_links = N` processes exactly the first `N` links of its input (it equals
the unbounded run on the truncated input). -/
theorem c1_bound_amended :
    (∀ (pages : List ListingPage) (N : Nat), 1 ≤ N →
      (get_book_links pages (some N)).length ≤ N) ∧
    (∀ (env : String → DetailPage) (links : List String) (N : Nat),
      scrape_book_details env links (some N) =
        scrape_book_details env (links.take N) none) := by
  constructor
  · intro pages N hN
    exact collectGo_length N pages [] (by simpa using hN)
  · intro env links N
    rfl

/-- Witness for C1 (amended) at a concrete trace and `N = 1`. -/
theorem c1_bound_witness :
    (get_book_links [⟨[some "A", some "B"], true, true, true⟩] (some 1)).length ≤ 1 :=
  c1_bound_amended.1 [⟨[some "A", some "B"], true, true, true⟩] 1 (by decide)

/-- C2: on a detail page whose price buttons read `["Very Good $5", "Good $3"]`,
the produced record maps "Very Good" to "$5" and "Good" to "$3" (the second
button's exact text overwrites the intermediate value that "Good" picked up
from the first button's text by substring match). -/
theorem c2_button_mapping :
    ((scrape_book_details
        (fun _ => ⟨true, true, "The Title", some (some "4.1"), true,
          ["Very Good $5", "Good $3"]⟩) ["url"] none).head?.bind
        (List.lookup "Very Good")) = some (some "$5") ∧
    ((scrape_book_details
        (fun _ => ⟨true, true, "The Title", some (some "4.1"), true,
          ["Very Good $5", "Good $3"]⟩) ["url"] none).head?.bind
        (List.lookup "Good")) = some (some "$3") := by
  decide

/-- C3: `get_book_links` never returns a duplicate string, and on any fully
traversable trace (all waits succeed, next always enabled) with no bound it
returns exactly the first-occurrence deduplication of the concatenated item
streams — first seen wins, order of first appearance preserved, duplicates
skipped without affecting the count. -/
theorem c3_dedup_first_seen :
    (∀ (pages : List ListingPage) (max_links : Option Nat),
      (get_book_links pages max_links).Nodup) ∧
    (∀ pages : List ListingPage, fullTraversal pages = true →
      get_book_links pages none = firstDedup ((pages.map ListingPage.items).flatten)) := by
  constructor
  · intro pages ml
    exact collectGo_nodup ml pages [] List.nodup_nil
  · intro pages hT
    exact collectGo_full pages hT []

/-- Witness for C3 on the spec's two-page overlapping scenario. -/
theorem c3_witness :
    fullTraversal
        [⟨[some "A", some "B", some "C"], true, true, false⟩,
         ⟨[some "C", some "D"], true, true, false⟩] = true ∧
    get_book_links
        [⟨[some "A", some "B", some "C"], true, true, false⟩,
         ⟨[some "C", some "D"], true, true, false⟩] none =
      firstDedup (([⟨[some "A", some "B", some "C"], true, true, false⟩,
         ⟨[some "C", some "D"], true, true, false⟩].map ListingPage.items).flatten) :=
  ⟨by decide,
   c3_dedup_first_seen.2
     [⟨[some "A", some "B", some "C"], true, true, false⟩,
      ⟨[some "C", some "D"], true, true, false⟩] (by decide)⟩

/-- C4: every record `scrape_book_details` produces has exactly the keys
Title, Rating, URL followed by the 8 format keys in catalog order; when the
button enumeration failed or found no buttons, every format entry is "N/A";
and a format entry other than "N/A" can only come from some button whose
(stripped) text matches that format. -/
theorem c4_schema_completeness :
    (∀ (env : String → DetailPage) (links : List String) (max_links : Option Nat)
        (r : Record), r ∈ scrape_book_details env links max_links →
        r.map Prod.fst = "Title" :: "Rating" :: "URL" :: formats) ∧
    ∀ (page : DetailPage) (link : String) (r : Record),
      processLink page link = some r →
      (page.buttonsOk = false ∨ page.buttons = [] →
        ∀ fmt ∈ formats, List.lookup fmt r = some (some "N/A")) ∧
      (∀ fmt ∈ formats, List.lookup fmt r ≠ some (some "N/A") →
        page.buttonsOk = true ∧ ∃ t ∈ page.buttons, matchesFmt (pyStrip t) fmt = true) := by
  constructor
  · intro env links ml r hmem
    obtain ⟨link, hl⟩ := mem_scrape hmem
    exact record_keys hl
  intro page link r h
  refine ⟨?_, ?_⟩
  · intro hb fmt hf
    rw [lookup_record_fmt h hf]
    have hNA : List.lookup fmt (pricesOf page) = some "N/A" := by
      rcases hb with hb | hb
      · rw [pricesOf, if_neg (by simp [hb])]
        exact lookup_initPrices fmt hf
      · rw [pricesOf]
        by_cases hbo : page.buttonsOk = true
        · rw [if_pos hbo, hb, List.foldl_nil]
          exact lookup_initPrices fmt hf
        · rw [if_neg hbo]
          exact lookup_initPrices fmt hf
    rw [hNA]
    rfl
  · intro fmt hf hne
    have hx : List.lookup fmt (pricesOf page) ≠ some "N/A" := by
      intro hc
      rw [lookup_record_fmt h hf, hc] at hne
      exact hne rfl
    by_cases hbo : page.buttonsOk = true
    · refine ⟨hbo, ?_⟩
      rw [pricesOf, if_pos hbo, lookup_foldButtons fmt hf page.buttons initPrices] at hx
      cases hl : (page.buttons.filter fun b => matchesFmt (pyStrip b) fmt).getLast? with
      | none =>
        rw [hl, lookup_initPrices fmt hf] at hx
        exact absurd rfl hx
      | some t =>
        have ht := getLast?_mem_of_eq hl
        have hmem := List.mem_filter.mp ht
        exact ⟨t, hmem.1, by simpa using hmem.2⟩
    · rw [pricesOf, if_neg hbo, lookup_initPrices fmt hf] at hx
      exact absurd rfl hx

/-- Witness for C4 at a concrete buttonless page. -/
theorem c4_witness :
    List.lookup "Hardcover"
        (("Title", some "T") :: ("Rating", some "N/A") :: ("URL", some "u") ::
          initPrices.map fun kv => (kv.1, some kv.2)) = some (some "N/A") :=
  (c4_schema_completeness.2 ⟨true, true, "T", none, false, []⟩ "u"
      (("Title", some "T") :: ("Rating", some "N/A") :: ("URL", some "u") ::
        initPrices.map fun kv => (kv.1, some kv.2)) (by decide)).1
    (Or.inl rfl) "Hardcover" (by decide)

/-- C5, as stated, is false: when the rating meta element is present but its
`content` attribute is absent, `get_attribute` returns Python `None` without
raising, so the record's Rating is `None`, not the sentinel "N/A" — even
though the rating value was absent from the page. -/
theorem c5_rating_counterexample :
    (processLink ⟨true, true, "T", some none, true, []⟩ "u").bind
        (List.lookup "Rating") = some none ∧
    (some (none : Option String)) ≠ some (some "N/A") := by
  decide

/-- C5 (amended): a record's Rating is the sentinel "N/A" exactly when the
rating element lookup raised; when the lookup succeeds, Rating is the
`content` attribute value itself — `None` (not "N/A") when the attribute is
absent, and "N/A" only if the page literally supplies that string. -/
theorem c5_rating_amended :
    ∀ (page : DetailPage) (link : String) (r : Record),
      processLink page link = some r →
      List.lookup "Rating" r =
        some (match page.ratingAttr with | none => some "N/A" | some a => a) :=
  fun _ _ _ h => lookup_record_rating h

/-- Witness for C5 (amended) at a page whose rating lookup raises. -/
theorem c5_rating_witness :
    List.lookup "Rating"
        (("Title", some "T") :: ("Rating", some "N/A") :: ("URL", some "u") ::
          initPrices.map fun kv => (kv.1, some kv.2)) = some (some "N/A") :=
  c5_rating_amended ⟨true, true, "T", none, false, []⟩ "u"
    (("Title", some "T") :: ("Rating", some "N/A") :: ("URL", some "u") ::
      initPrices.map fun kv => (kv.1, some kv.2)) (by decide)

/-- C6: if the initial item-presence wait times out on some page, the
collection loop aborts there and `get_book_links` returns, as a normal value,
exactly what it would have collected over the preceding pages; the rest of
the trace is never consulted (the model is a total function, so no exception
reaches the caller). -/
theorem c6_wait_timeout_partial :
    ∀ (pre : List ListingPage) (p : ListingPage) (post : List ListingPage)
      (max_links : Option Nat),
      p.waitOk = false →
      get_book_links (pre ++ p :: post) max_links = get_book_links pre max_links := by
  intro pre p post ml hw
  exact collectGo_abort ml p post hw pre []

/-- Witness for C6: a timing-out second page yields just the first page's
links. -/
theorem c6_witness :
    get_book_links
        ([⟨[some "A"], true, true, false⟩] ++
          (⟨[some "B"], false, true, false⟩ : ListingPage) :: []) none =
      get_book_links [⟨[some "A"], true, true, false⟩] none :=
  c6_wait_timeout_partial [⟨[some "A"], true, true, false⟩]
    ⟨[some "B"], false, true, false⟩ [] none rfl

/-- C7: a link whose per-link processing fails (navigation or title wait
raises) contributes no record — not even a partial one — and the remaining
links produce exactly the records they would produce without it. -/
theorem c7_link_failure_isolated :
    ∀ (env : String → DetailPage) (pre : List String) (link : String) (post : List String),
      processLink (env link) link = none →
      scrape_book_details env (pre ++ link :: post) none =
        scrape_book_details env (pre ++ post) none := by
  intro env pre link post h
  rw [scrape_eq_filterMap, scrape_eq_filterMap, List.filterMap_append,
    List.filterMap_append, List.filterMap_cons, h]

/-- Witness for C7: a middle link whose title wait fails is skipped. -/
theorem c7_witness :
    scrape_book_details (fun _ => ⟨true, false, "T", none, true, []⟩)
        (["a"] ++ "b" :: ["c"]) none =
      scrape_book_details (fun _ => ⟨true, false, "T", none, true, []⟩)
        (["a"] ++ ["c"]) none :=
  c7_link_failure_isolated (fun _ => ⟨true, false, "T", none, true, []⟩)
    ["a"] "b" ["c"] (by decide)

/-- C8: whenever `scrape_book_details` produces a non-empty record list, the
header `save_to_csv` writes is the first record's key order: Title, Rating,
URL, then the 8 formats in catalog order; and an empty record list performs
no write at all. -/
theorem c8_header_order :
    (∀ (env : String → DetailPage) (links : List String) (max_links : Option Nat)
        (r : Record) (rest : List Record),
      scrape_book_details env links max_links = r :: rest →
      (save_to_csv (r :: rest)).map Prod.fst =
        some ("Title" :: "Rating" :: "URL" :: formats)) ∧
    save_to_csv [] = none := by
  constructor
  · intro env links ml r rest h
    have hr : r ∈ scrape_book_details env links ml := by
      rw [h]
      exact List.mem_cons_self r rest
    obtain ⟨link, hl⟩ := mem_scrape hr
    simp only [save_to_csv, Option.map_some]
    rw [record_keys hl]
    rfl
  · rfl

/-- Witness for C8 at a one-link environment. -/
theorem c8_witness :
    (save_to_csv [("Title", some "T") :: ("Rating", some "N/A") :: ("URL", some "u") ::
        initPrices.map fun kv => (kv.1, some kv.2)]).map Prod.fst =
      some ("Title" :: "Rating" :: "URL" :: formats) :=
  c8_header_order.1 (fun _ => ⟨true, true, "T", none, false, []⟩) ["u"] none
    (("Title", some "T") :: ("Rating", some "N/A") :: ("URL", some "u") ::
      initPrices.map fun kv => (kv.1, some kv.2)) [] (by decide)

/-- C9: `make_driver` builds the same browser options no matter what
`headless` argument it receives (the headless switch is commented out in the
source), and headless mode is never enabled. -/
theorem c9_headless_ignored :
    ∀ h₁ h₂ : Bool, make_driver h₁ = make_driver h₂ ∧ "--headless" ∉ make_driver h₁ := by
  intro h₁ h₂
  exact ⟨rfl, by simp [make_driver]⟩

/-- C10: within one detail page, when several buttons' stripped texts match
the same format, the record stores the price derived from the last matching
button in enumeration order (each match overwrites the previous value,
including the "N/A" default). -/
theorem c10_last_match_wins :
    ∀ (page : DetailPage) (link : String) (r : Record) (fmt t : String),
      processLink page link = some r →
      page.buttonsOk = true →
      fmt ∈ formats →
      (page.buttons.filter fun b => matchesFmt (pyStrip b) fmt).getLast? = some t →
      List.lookup fmt r = some (some (derivePrice (pyStrip t) fmt)) := by
  intro page link r fmt t h hbo hf hl
  rw [lookup_record_fmt h hf, pricesOf, if_pos hbo,
    lookup_foldButtons fmt hf page.buttons initPrices, hl]
  rfl

/-- Witness for C10: two buttons both matching "Good"; the second one's price
is stored. -/
theorem c10_witness :
    List.lookup "Good"
        [("Title", some "T"), ("Rating", some "N/A"), ("URL", some "u"),
          ("Hardcover", some "N/A"), ("Paperback", some "N/A"),
          ("Library Binding", some "N/A"), ("Like New", some "N/A"),
          ("Very Good", some "N/A"), ("Good", some "$4"),
          ("Acceptable", some "N/A"), ("New", some "N/A")] =
      some (some (derivePrice (pyStrip "Good $4") "Good")) :=
  c10_last_match_wins ⟨true, true, "T", none, true, ["Good $3", "Good $4"]⟩ "u"
    [("Title", some "T"), ("Rating", some "N/A"), ("URL", some "u"),
      ("Hardcover", some "N/A"), ("Paperback", some "N/A"),
      ("Library Binding", some "N/A"), ("Like New", some "N/A"),
      ("Very Good", some "N/A"), ("Good", some "$4"),
      ("Acceptable", some "N/A"), ("New", some "N/A")]
    "Good" "Good $4" (by decide) rfl (by decide) (by decide)
